import Mathlib

/-!
Shallow embedding of `src/unresponsive.c`.

The core is `respond_slowly` (per-connection state machine):
  * a deadline-bounded read loop (`readLoop` / `rstep`, C lines 105-160),
  * a sniffer that scans the held bytes for an HTTP/1.0 or HTTP/1.1
    request-line marker via `memmem` (`sniff`, C lines 147-152),
  * an optional early 503-header write block (C lines 162-170),
  * a post-deadline draining loop (`drainLoop`, C lines 174-189),
  * a final response write (C lines 191-197) and the `done:` close
    block (C lines 200-203).
Argument parsing in `main` (C lines 280-333) is embedded as `mainArgs`.

Time is modelled in whole seconds (`time(NULL)` granularity) as `Nat`.
The environment (peer, kernel scheduler) is modelled as a finite schedule
of events: each event says what `select`/`read` observed at that loop
iteration and how much wall-clock time elapsed while waiting; the elapsed
time of a wait is clamped to the `select` timeout, which was exactly the
remaining time to the deadline.  Write calls are modelled by a quota list:
each entry says how many bytes the corresponding `writestr` call manages
to push before failing (an exhausted quota list means the write succeeds
in full).
-/

namespace Unresponsive

/-- Buffer capacity: `sizeof(buf)` for `char buf[4096]` in `respond_slowly`. -/
def CAP : Nat := 4096

/-- Bytes of a string literal, as natural numbers. -/
def strBytes (s : String) : List Nat := s.toList.map Char.toNat

/-- The plain greeting `hello` (C line 86). -/
def hello : List Nat := strBytes "Hello, world!\r\n"

/-- The 503 status line written at C line 164. -/
def status503 : List Nat := strBytes "HTTP/1.1 503 Service Unavailable\r\n"

/-- The Content-Type header line written at C line 165. -/
def contentType : List Nat := strBytes "Content-Type: text/plain\r\n"

/-- The final HTTP bytes written at C line 194. -/
def contentLength0 : List Nat := strBytes "Content-Length: 0\r\n\r\n"

/-- The marker `HTTP/1.0\r\n` searched at C line 148. -/
def marker10 : List Nat := strBytes "HTTP/1.0\r\n"

/-- The marker `HTTP/1.1\r\n` searched at C line 149. -/
def marker11 : List Nat := strBytes "HTTP/1.1\r\n"

/-- `hasPrefixB hay pat`: `pat` is a byte-for-byte leading segment of `hay`. -/
def hasPrefixB : List Nat → List Nat → Bool
  | _, [] => true
  | [], _ :: _ => false
  | a :: as, b :: bs => a == b && hasPrefixB as bs

/-- `containsSeqB hay pat`: `pat` occurs contiguously somewhere in `hay`
(the behaviour of `memmem(hay, pat)`). -/
def containsSeqB : List Nat → List Nat → Bool
  | [], pat => pat.isEmpty
  | a :: as, pat => hasPrefixB (a :: as) pat || containsSeqB as pat

/-- Spec-side predicate: `pat` occurs (contiguously, anywhere, not anchored
to the start) in `hay`. -/
def occursAnywhere (pat hay : List Nat) : Prop := ∃ u v, hay = u ++ pat ++ v

/-- The sniffer condition of C lines 148-149: either marker found by
`memmem` in the currently held bytes. -/
def sniff (held : List Nat) : Bool :=
  containsSeqB held marker10 || containsSeqB held marker11

/-- Log lines `respond_slowly` emits (only the shape needed by the claims;
the peer-name prefix and timestamps are elided). -/
inductive LogEv
  | connected
  | received (n : Nat)
  | reqLine (bs : List Nat)
  | sent503
  | eofLog
  | errLog
  | remainingLog (r : Nat)
  | closedLog
deriving DecidableEq

/-- Socket-level actions of the `done:` block. -/
inductive Act
  | shutdownRDWR
  | closeFd
deriving DecidableEq

/-- One environment event for an iteration of the first (deadline-bounded)
read loop, C lines 105-160.  `dt` is the wall-clock time that passed while
waiting in `select`; `chunk` in `data` is the (nonempty, in any faithful
schedule) byte sequence the pending input would deliver, of which `read`
returns at most the requested amount. -/
inductive REv
  | timeout
  | sintr (dt : Nat)
  | sfatal (dt : Nat)
  | data (chunk : List Nat) (dt : Nat)
  | peerClosed (dt : Nat)
  | rerr (dt : Nat)
  | rfatal (dt : Nat)
deriving DecidableEq

/-- How the first read loop was left. `pending` means the finite event
schedule ran out while the loop was still running (the run is incomplete). -/
inductive ExitK
  | timedOut
  | sawEof
  | fatal
  | pending
deriving DecidableEq

/-- Mutable per-connection state of the first read loop: current time,
the initialized bytes of `buf` (its length is the C variable `used`,
except in the buffer-full regime where `used` stays `CAP`), and the
`http` flag. -/
structure RSt where
  now : Nat
  buf : List Nat
  http : Bool
deriving DecidableEq

/-- One iteration body of the first read loop (C lines 107-159), given
that `remaining > 0` was already checked by the caller.  Returns the new
state, `some k` when the loop exits with kind `k`, and the log lines
emitted. -/
def rstep (endT : Nat) (s : RSt) (e : REv) : RSt × Option ExitK × List LogEv :=
  match e with
  | REv.timeout => ({ s with now := endT }, none, [])
  | REv.sintr dt => ({ s with now := min (s.now + dt) endT }, none, [])
  | REv.sfatal dt =>
      ({ s with now := min (s.now + dt) endT }, some ExitK.fatal, [LogEv.errLog])
  | REv.peerClosed dt =>
      ({ s with now := min (s.now + dt) endT }, some ExitK.sawEof, [LogEv.eofLog])
  | REv.rerr dt => ({ s with now := min (s.now + dt) endT }, none, [])
  | REv.rfatal dt =>
      ({ s with now := min (s.now + dt) endT }, some ExitK.fatal, [LogEv.errLog])
  | REv.data chunk dt =>
      let now2 := min (s.now + dt) endT
      let avail := CAP - s.buf.length
      if 0 < avail then
        let c := chunk.take avail
        let buf2 := s.buf ++ c
        let det := !s.http && sniff buf2
        ({ now := now2, buf := buf2, http := s.http || det },
         none,
         LogEv.received c.length ::
           (if det then [LogEv.reqLine (buf2.takeWhile (fun b => b ≠ 13))] else []))
      else
        let c := chunk.take CAP
        ({ now := now2, buf := c ++ s.buf.drop c.length, http := s.http },
         none, [LogEv.received c.length])

/-- The first read loop (C lines 105-160): check `remaining ≤ 0`, then run
one iteration body per scheduled event. -/
def readLoop (endT : Nat) : RSt → List REv → RSt × ExitK × List LogEv
  | s, [] => (s, if endT ≤ s.now then ExitK.timedOut else ExitK.pending, [])
  | s, e :: evs =>
      if endT ≤ s.now then (s, ExitK.timedOut, [])
      else
        match rstep endT s e with
        | (s2, some k, ls) => (s2, k, ls)
        | (s2, none, ls) =>
            match readLoop endT s2 evs with
            | (s3, k, ls2) => (s3, k, ls ++ ls2)

/-- One environment event for an iteration of the draining loop
(C lines 174-189): what the unconditional `read(fd, buf, sizeof(buf))`
observed.  An exhausted schedule behaves like `derr` (nonblocking read
with no pending data returns -1/EAGAIN). -/
inductive DEv
  | dclosed
  | derr
  | ddata (chunk : List Nat)
deriving DecidableEq

/-- Result of the draining loop. -/
structure DRes where
  now : Nat
  buf : List Nat
  eof : Bool
  iters : Nat
  sleeps : List Nat
  logs : List LogEv
deriving DecidableEq

/-- Recursion core of the draining loop.  `fuel` only bounds the
recursion depth so that the definition is structurally recursive (and so
computable by the kernel); `drainLoop` below passes the full remaining
time as fuel, which can never run out because every iteration consumes at
least one second, so the `fuel = 0` branch is unreachable from
`drainLoop` (its value there is irrelevant). -/
def drainGo (fuel endT now : Nat) (buf : List Nat) (devs : List DEv) : DRes :=
  if endT ≤ now then
    { now := now, buf := buf, eof := false, iters := 0, sleeps := [], logs := [] }
  else
    match fuel with
    | 0 =>
        { now := now, buf := buf, eof := false, iters := 0, sleeps := [], logs := [] }
    | fuel + 1 =>
        let remaining := endT - now
        let slp := min 10 remaining
        match devs with
        | DEv.dclosed :: _ =>
            { now := now, buf := buf, eof := true, iters := 1, sleeps := [],
              logs := [LogEv.eofLog] }
        | DEv.ddata chunk :: tail =>
            let r := drainGo fuel endT (now + slp)
              ((chunk.take CAP) ++ buf.drop (chunk.take CAP).length) tail
            { now := r.now, buf := r.buf, eof := r.eof, iters := r.iters + 1,
              sleeps := slp :: r.sleeps,
              logs := LogEv.remainingLog remaining :: r.logs }
        | DEv.derr :: tail =>
            let r := drainGo fuel endT (now + slp) buf tail
            { now := r.now, buf := r.buf, eof := r.eof, iters := r.iters + 1,
              sleeps := slp :: r.sleeps,
              logs := LogEv.remainingLog remaining :: r.logs }
        | [] =>
            let r := drainGo fuel endT (now + slp) buf []
            { now := r.now, buf := r.buf, eof := r.eof, iters := r.iters + 1,
              sleeps := slp :: r.sleeps,
              logs := LogEv.remainingLog remaining :: r.logs }

/-- The draining loop (C lines 174-189): while time remains, do one read
(a zero-byte read sets `eof` and stops; an error return or data — read
into `buf` from its start — is otherwise ignored), log the remaining
time, and sleep `min 10 remaining` seconds. -/
def drainLoop (endT now : Nat) (buf : List Nat) (devs : List DEv) : DRes :=
  drainGo (endT - now) endT now buf devs

/-- State threaded through the `writestr` calls: bytes pushed to the
socket so far, the remaining per-call quota schedule, and log lines. -/
structure WSt where
  wire : List Nat
  wq : List Nat
  logs : List LogEv
deriving DecidableEq

/-- One `writestr(fd, name, s)` call (C lines 63-82): pushes as many bytes
of `s` as the environment's quota for this call allows; on a short (failed)
write it logs an error and reports failure (-1), otherwise success (0). -/
def writestr (w : WSt) (s : List Nat) : WSt × Bool :=
  match w.wq with
  | [] => ({ w with wire := w.wire ++ s }, true)
  | k :: t =>
      if s.length ≤ k then
        ({ w with wire := w.wire ++ s, wq := t }, true)
      else
        ({ w with
            wire := w.wire ++ s.take k
            wq := t
            logs := w.logs ++ [LogEv.errLog] }, false)

/-- Observable outcome of one complete `respond_slowly` run. -/
structure Run where
  wire : List Nat
  logs : List LogEv
  acts : List Act
  http : Bool
  exitk : ExitK
  respTime : Option Nat
  totalSusp : Nat
  drainIters : Nat
deriving DecidableEq

/-- The `done:` block of `respond_slowly` (C lines 200-203): shut both
directions down, close the socket, and log `CLOSED`, whatever else
happened.  `mid` is every log line emitted between `CONNECTED` and
`CLOSED`. -/
def finish (s1 : RSt) (k : ExitK) (mid : List LogEv) (wire : List Nat)
    (respTime : Option Nat) (susp iters : Nat) : Run :=
  { wire := wire, logs := LogEv.connected :: (mid ++ [LogEv.closedLog]),
    acts := [Act.shutdownRDWR, Act.closeFd], http := s1.http, exitk := k,
    respTime := respTime, totalSusp := susp, drainIters := iters }

/-- The 503-header block (C lines 162-170): when `http` was detected it
writes the status line and the Content-Type line (both write calls always
made, regardless of `eof0`), folds write failures into the `eof` flag with
`eof |= writestr(...)`, and logs `Sent HTTP 503` only when the flag stayed
clear.  Returns the write state and the updated `eof` flag. -/
def httpBlock (http eof0 : Bool) (wq : List Nat) : WSt × Bool :=
  let w0 : WSt := { wire := [], wq := wq, logs := [] }
  match http with
  | true =>
      let r1 := writestr w0 status503
      let r2 := writestr r1.1 contentType
      let e := eof0 || !r1.2 || !r2.2
      (if e then r2.1 else { r2.1 with logs := r2.1.logs ++ [LogEv.sent503] }, e)
  | false => (w0, eof0)

/-- Everything `respond_slowly` does after leaving the first read loop in
state `s1` with exit kind `k` (C lines 162-204): a fatal read-loop exit is
`goto done`; otherwise the 503-header block, then (only with the `eof`
flag clear) the draining loop and the final response write, then the
`done:` block. -/
def afterRead (endT start : Nat) (devs : List DEv) (wq : List Nat)
    (s1 : RSt) (k : ExitK) (rlogs : List LogEv) : Run :=
  if k = ExitK.fatal then
    finish s1 k rlogs [] none (s1.now - start) 0
  else
    let hb := httpBlock s1.http (decide (k = ExitK.sawEof)) wq
    if hb.2 then
      finish s1 k (rlogs ++ hb.1.logs) hb.1.wire none (s1.now - start) 0
    else
      let d := drainLoop endT s1.now s1.buf devs
      let w1 : WSt := { wire := hb.1.wire, wq := hb.1.wq, logs := hb.1.logs ++ d.logs }
      let fin :=
        if d.eof then (w1, (none : Option Nat))
        else ((writestr w1 (if s1.http then contentLength0 else hello)).1, some d.now)
      finish s1 k (rlogs ++ fin.1.logs) fin.1.wire fin.2
        ((s1.now - start) + d.sleeps.sum) d.iters

/-- The whole of `respond_slowly` (C lines 84-204) for a connection
accepted at time `start` with configured delay `delay`, against the given
event and write-quota schedules.  Returns `none` when the finite schedule
ran out before the connection finished. -/
def run (delay start : Nat) (evs : List REv) (devs : List DEv) (wq : List Nat) :
    Option Run :=
  match readLoop (start + delay) { now := start, buf := [], http := false } evs with
  | (_, ExitK.pending, _) => none
  | (s1, k, rlogs) => some (afterRead (start + delay) start devs wq s1 k rlogs)

/-- Characters `isspace` accepts in the C locale (used by `atoi`). -/
def isSpaceC (c : Char) : Bool :=
  c = ' ' || c = '\t' || c = '\n' || c = '\x0b' || c = '\x0c' || c = '\r'

/-- Value of the longest leading digit run (the accumulation `atoi` does). -/
def atoiDigits (cs : List Char) : Int :=
  (cs.takeWhile Char.isDigit).foldl (fun a c => a * 10 + ((c.toNat : Int) - 48)) 0

/-- C `atoi`: skip whitespace, optional sign, then the longest digit run;
trailing garbage is ignored (overflow is undefined in C and left unbounded
here). -/
def atoi (s : String) : Int :=
  match s.toList.dropWhile isSpaceC with
  | '-' :: t => - atoiDigits t
  | '+' :: t => atoiDigits t
  | cs => atoiDigits cs

/-- The argument loop of `main` (C lines 289-313): `-1` sets the
single-client flag; any other argument starting with `-` is an
unrecognized option (error message, exit 1, modelled as `none`); the
first two other arguments become port and delay; a third is "too many
arguments" (error message, exit 1, `none`). -/
def parseLoop : List String → Option String → Option String → Bool →
    Option (Option String × Option String × Bool)
  | [], p, d, s => some (p, d, s)
  | a :: rest, p, d, s =>
      if a = "-1" then parseLoop rest p d true
      else if a.toList.head? = some '-' then none
      else
        match p with
        | none => parseLoop rest (some a) d s
        | some _ =>
            match d with
            | none => parseLoop rest p (some a) s
            | some _ => none

/-- Outcome of `main`'s startup phase (C lines 289-330): run the server
with the parsed configuration, exit 1 after printing the usage text, or
exit 1 after printing an error message (without the usage text). -/
inductive ArgRes
  | runServer (port delay : Int) (single : Bool)
  | exitUsage
  | exitErrMsg
deriving DecidableEq

/-- `main`'s startup phase on the argument vector (without `argv[0]`):
the parse loop, then the missing-argument check (usage, exit 1), then
`atoi` on both positionals and the positivity check (usage, exit 1),
before `server()` ever runs. -/
def mainArgs (argv : List String) : ArgRes :=
  match parseLoop argv none none false with
  | none => ArgRes.exitErrMsg
  | some (p, d, s) =>
      match p, d with
      | some ps, some ds =>
          if atoi ps ≤ 0 ∨ atoi ds ≤ 0 then ArgRes.exitUsage
          else ArgRes.runServer (atoi ps) (atoi ds) s
      | some _, none => ArgRes.exitUsage
      | none, _ => ArgRes.exitUsage

/-- Whether the startup outcome printed the usage text. -/
def usagePrinted : ArgRes → Bool
  | ArgRes.exitUsage => true
  | _ => false

/-- Whether the startup outcome exits the process with a non-zero status
before any connection handling. -/
def exitsNonzero : ArgRes → Bool
  | ArgRes.runServer _ _ _ => false
  | _ => true

/-! ### Helper lemmas about the read loop -/

theorem rstep_now_le (endT : Nat) (s : RSt) (e : REv) :
    (rstep endT s e).1.now ≤ endT := by
  cases e <;> simp only [rstep] <;> try omega
  case data chunk dt =>
    split <;> simp

theorem rstep_now_mono (endT : Nat) (s : RSt) (e : REv) (h : s.now ≤ endT) :
    s.now ≤ (rstep endT s e).1.now := by
  cases e <;> simp only [rstep] <;> try omega
  case data chunk dt =>
    split <;> simp <;> omega

theorem rstep_exit_cases (endT : Nat) (s : RSt) (e : REv) :
    (rstep endT s e).2.1 = none ∨ (rstep endT s e).2.1 = some ExitK.fatal ∨
      (rstep endT s e).2.1 = some ExitK.sawEof := by
  cases e <;> simp only [rstep] <;> try simp
  case data chunk dt =>
    split <;> simp

theorem readLoop_now_le (endT : Nat) (evs : List REv) (s : RSt) (h : s.now ≤ endT) :
    (readLoop endT s evs).1.now ≤ endT := by
  induction evs generalizing s with
  | nil => simpa [readLoop]
  | cons e evs ih =>
      simp only [readLoop]
      split
      · simpa
      · rcases hs : rstep endT s e with ⟨s2, k, ls⟩
        have h2 := rstep_now_le endT s e
        rw [hs] at h2
        cases k with
        | some k => simpa using h2
        | none => simpa using ih s2 h2

theorem readLoop_now_mono (endT : Nat) (evs : List REv) (s : RSt) (h : s.now ≤ endT) :
    s.now ≤ (readLoop endT s evs).1.now := by
  induction evs generalizing s with
  | nil => simp [readLoop]
  | cons e evs ih =>
      simp only [readLoop]
      split
      · simp
      · next hle =>
        rcases hs : rstep endT s e with ⟨s2, k, ls⟩
        have h2 := rstep_now_le endT s e
        have h3 := rstep_now_mono endT s e h
        rw [hs] at h2 h3
        cases k with
        | some k => simpa using h3
        | none =>
            have h4 := ih s2 h2
            calc s.now ≤ s2.now := h3
              _ ≤ _ := by simpa using h4

theorem readLoop_timedOut_now (endT : Nat) (evs : List REv) (s : RSt) (h : s.now ≤ endT)
    (ht : (readLoop endT s evs).2.1 = ExitK.timedOut) :
    (readLoop endT s evs).1.now = endT := by
  induction evs generalizing s with
  | nil =>
      simp only [readLoop] at ht
      show s.now = endT
      split at ht
      · next hle => omega
      · simp at ht
  | cons e evs ih =>
      by_cases hle : endT ≤ s.now
      · simp only [readLoop, if_pos hle]
        show s.now = endT
        omega
      · simp only [readLoop, if_neg hle] at ht ⊢
        rcases hs : rstep endT s e with ⟨s2, ok, ls⟩
        have h2 := rstep_now_le endT s e
        have hc := rstep_exit_cases endT s e
        rw [hs] at h2 hc
        cases ok with
        | some k =>
            exfalso
            simp [hs] at ht hc
            subst ht
            simp at hc
        | none =>
            simp [hs] at ht ⊢
            exact ih s2 h2 ht

theorem rstep_buf_le (endT : Nat) (s : RSt) (e : REv) (h : s.buf.length ≤ CAP) :
    (rstep endT s e).1.buf.length ≤ CAP := by
  cases e <;> simp only [rstep] <;>
    first
      | simpa
      | (split <;> simp [List.length_take, List.length_drop] <;> omega)

theorem rstep_data_growth (endT : Nat) (s : RSt) (chunk : List Nat) (dt : Nat) :
    (rstep endT s (REv.data chunk dt)).1.buf.length ≤
      s.buf.length + (CAP - s.buf.length) := by
  simp only [rstep]
  split <;> simp [List.length_take, List.length_drop] <;> omega

theorem rstep_full (endT : Nat) (s : RSt) (e : REv) (h : s.buf.length = CAP) :
    (rstep endT s e).1.buf.length = CAP ∧ (rstep endT s e).1.http = s.http := by
  cases e <;> simp only [rstep] <;> simp [h]

theorem rstep_scratch (endT : Nat) (s : RSt) (chunk : List Nat) (dt : Nat)
    (h : ¬ 0 < CAP - s.buf.length) :
    (rstep endT s (REv.data chunk dt)).1.buf =
      chunk.take CAP ++ s.buf.drop (chunk.take CAP).length := by
  simp only [rstep]
  rw [if_neg h]

theorem readLoop_buf_le (endT : Nat) (evs : List REv) (s : RSt) (h : s.buf.length ≤ CAP) :
    (readLoop endT s evs).1.buf.length ≤ CAP := by
  induction evs generalizing s with
  | nil => simpa [readLoop]
  | cons e evs ih =>
      simp only [readLoop]
      split
      · simpa
      · rcases hs : rstep endT s e with ⟨s2, k, ls⟩
        have h2 := rstep_buf_le endT s e h
        rw [hs] at h2
        cases k with
        | some k => simpa using h2
        | none => simpa using ih s2 h2

theorem readLoop_full (endT : Nat) (evs : List REv) (s : RSt) (h : s.buf.length = CAP) :
    (readLoop endT s evs).1.http = s.http ∧ (readLoop endT s evs).1.buf.length = CAP := by
  induction evs generalizing s with
  | nil => simp [readLoop, h]
  | cons e evs ih =>
      simp only [readLoop]
      split
      · simp [h]
      · rcases hs : rstep endT s e with ⟨s2, k, ls⟩
        have h2 := rstep_full endT s e h
        rw [hs] at h2
        cases k with
        | some k => simpa using ⟨h2.2, h2.1⟩
        | none =>
            have h3 := ih s2 h2.1
            constructor
            · simpa using h3.1.trans h2.2
            · simpa using h3.2

theorem closedLog_not_rstep (endT : Nat) (s : RSt) (e : REv) :
    LogEv.closedLog ∉ (rstep endT s e).2.2 := by
  cases e <;> simp only [rstep] <;> try simp
  case data chunk dt =>
    split <;> simp <;> split <;> simp

theorem closedLog_not_readLoop (endT : Nat) (evs : List REv) (s : RSt) :
    LogEv.closedLog ∉ (readLoop endT s evs).2.2 := by
  induction evs generalizing s with
  | nil => simp [readLoop]
  | cons e evs ih =>
      simp only [readLoop]
      split
      · simp
      · rcases hs : rstep endT s e with ⟨s2, k, ls⟩
        have h2 := closedLog_not_rstep endT s e
        rw [hs] at h2
        cases k with
        | some k => simpa using h2
        | none =>
            simp only []
            simp only [List.mem_append, not_or]
            exact ⟨by simpa using h2, by simpa using ih s2⟩

/-! ### Helper lemmas about the draining loop -/

theorem drainGo_stop (fuel endT now : Nat) (buf : List Nat) (devs : List DEv)
    (h : endT ≤ now) :
    drainGo fuel endT now buf devs =
      { now := now, buf := buf, eof := false, iters := 0, sleeps := [], logs := [] } := by
  cases fuel <;> simp [drainGo, h]

theorem drainLoop_stop (endT now : Nat) (buf : List Nat) (devs : List DEv)
    (h : endT ≤ now) :
    drainLoop endT now buf devs =
      { now := now, buf := buf, eof := false, iters := 0, sleeps := [], logs := [] } :=
  drainGo_stop _ _ _ _ _ h

theorem drainGo_iters_le (fuel : Nat) : ∀ endT now buf devs,
    (drainGo fuel endT now buf devs).iters ≤ (endT - now + 9) / 10 := by
  induction fuel with
  | zero =>
      intro endT now buf devs
      by_cases h : endT ≤ now
      · rw [drainGo_stop _ _ _ _ _ h]
        simp
      · rw [drainGo, if_neg h]
        simp
  | succ fuel ih =>
      intro endT now buf devs
      by_cases h : endT ≤ now
      · rw [drainGo_stop _ _ _ _ _ h]
        simp
      · rw [drainGo, if_neg h]
        cases devs with
        | nil =>
            have := ih endT (now + min 10 (endT - now)) buf []
            simp only [] at this ⊢
            omega
        | cons d tail =>
            cases d with
            | dclosed =>
                simp only []
                omega
            | derr =>
                have := ih endT (now + min 10 (endT - now)) buf tail
                simp only [] at this ⊢
                omega
            | ddata chunk =>
                have := ih endT (now + min 10 (endT - now))
                  ((chunk.take CAP) ++ buf.drop (chunk.take CAP).length) tail
                simp only [] at this ⊢
                omega

theorem drainLoop_iters_le (endT now : Nat) (buf : List Nat) (devs : List DEv) :
    (drainLoop endT now buf devs).iters ≤ (endT - now + 9) / 10 :=
  drainGo_iters_le (endT - now) endT now buf devs

theorem drainGo_sleeps_sum (fuel : Nat) : ∀ endT now buf devs,
    (drainGo fuel endT now buf devs).sleeps.sum ≤ endT - now := by
  induction fuel with
  | zero =>
      intro endT now buf devs
      by_cases h : endT ≤ now
      · rw [drainGo_stop _ _ _ _ _ h]
        simp
      · rw [drainGo, if_neg h]
        simp
  | succ fuel ih =>
      intro endT now buf devs
      by_cases h : endT ≤ now
      · rw [drainGo_stop _ _ _ _ _ h]
        simp
      · rw [drainGo, if_neg h]
        cases devs with
        | nil =>
            have := ih endT (now + min 10 (endT - now)) buf []
            simp only [List.sum_cons] at this ⊢
            omega
        | cons d tail =>
            cases d with
            | dclosed =>
                simp only [List.sum_nil]
                omega
            | derr =>
                have := ih endT (now + min 10 (endT - now)) buf tail
                simp only [List.sum_cons] at this ⊢
                omega
            | ddata chunk =>
                have := ih endT (now + min 10 (endT - now))
                  ((chunk.take CAP) ++ buf.drop (chunk.take CAP).length) tail
                simp only [List.sum_cons] at this ⊢
                omega

theorem drainLoop_sleeps_sum (endT now : Nat) (buf : List Nat) (devs : List DEv) :
    (drainLoop endT now buf devs).sleeps.sum ≤ endT - now :=
  drainGo_sleeps_sum (endT - now) endT now buf devs

theorem drainGo_no_closed (fuel : Nat) : ∀ endT now buf devs,
    endT - now ≤ fuel → DEv.dclosed ∉ devs →
    (drainGo fuel endT now buf devs).eof = false ∧
      endT ≤ (drainGo fuel endT now buf devs).now := by
  induction fuel with
  | zero =>
      intro endT now buf devs hf h
      have hle : endT ≤ now := by omega
      rw [drainGo_stop _ _ _ _ _ hle]
      simpa using hle
  | succ fuel ih =>
      intro endT now buf devs hf h
      by_cases hle : endT ≤ now
      · rw [drainGo_stop _ _ _ _ _ hle]
        simpa using hle
      · rw [drainGo, if_neg hle]
        cases devs with
        | nil =>
            have := ih endT (now + min 10 (endT - now)) buf [] (by omega) h
            simpa using this
        | cons d tail =>
            cases d with
            | dclosed => exact absurd (by simp) h
            | derr =>
                have := ih endT (now + min 10 (endT - now)) buf tail (by omega)
                  (by intro hm; exact h (List.mem_cons_of_mem _ hm))
                simpa using this
            | ddata chunk =>
                have := ih endT (now + min 10 (endT - now))
                  ((chunk.take CAP) ++ buf.drop (chunk.take CAP).length) tail (by omega)
                  (by intro hm; exact h (List.mem_cons_of_mem _ hm))
                simpa using this

theorem drainLoop_no_closed (endT now : Nat) (buf : List Nat) (devs : List DEv)
    (h : DEv.dclosed ∉ devs) :
    (drainLoop endT now buf devs).eof = false ∧
      endT ≤ (drainLoop endT now buf devs).now :=
  drainGo_no_closed (endT - now) endT now buf devs (le_refl _) h

theorem drainGo_buf_le (fuel : Nat) : ∀ endT now buf devs,
    buf.length ≤ CAP → (drainGo fuel endT now buf devs).buf.length ≤ CAP := by
  induction fuel with
  | zero =>
      intro endT now buf devs h
      by_cases hle : endT ≤ now
      · rw [drainGo_stop _ _ _ _ _ hle]
        simpa using h
      · rw [drainGo, if_neg hle]
        simpa using h
  | succ fuel ih =>
      intro endT now buf devs h
      by_cases hle : endT ≤ now
      · rw [drainGo_stop _ _ _ _ _ hle]
        simpa using h
      · rw [drainGo, if_neg hle]
        cases devs with
        | nil =>
            have := ih endT (now + min 10 (endT - now)) buf [] h
            simpa using this
        | cons d tail =>
            cases d with
            | dclosed => simpa using h
            | derr =>
                have := ih endT (now + min 10 (endT - now)) buf tail h
                simpa using this
            | ddata chunk =>
                have := ih endT (now + min 10 (endT - now))
                  ((chunk.take CAP) ++ buf.drop (chunk.take CAP).length) tail
                  (by simp [List.length_take, List.length_drop]; omega)
                simpa using this

theorem drainLoop_buf_le (endT now : Nat) (buf : List Nat) (devs : List DEv)
    (h : buf.length ≤ CAP) :
    (drainLoop endT now buf devs).buf.length ≤ CAP :=
  drainGo_buf_le (endT - now) endT now buf devs h

theorem drainLoop_head_sleep (endT now : Nat) (buf : List Nat) (devs : List DEv)
    (h : now < endT) (h2 : devs.head? ≠ some DEv.dclosed) :
    (drainLoop endT now buf devs).sleeps.head? = some (min 10 (endT - now)) := by
  unfold drainLoop
  have hf : ∃ fuel, endT - now = fuel + 1 := ⟨endT - now - 1, by omega⟩
  rcases hf with ⟨fuel, hfe⟩
  rw [hfe, drainGo, if_neg (by omega)]
  cases devs with
  | nil =>
      simp
      omega
  | cons d tail =>
      cases d with
      | dclosed => simp at h2
      | derr =>
          simp
          omega
      | ddata chunk =>
          simp
          omega

theorem drainGo_logs_no_closed (fuel : Nat) : ∀ endT now buf devs,
    LogEv.closedLog ∉ (drainGo fuel endT now buf devs).logs := by
  induction fuel with
  | zero =>
      intro endT now buf devs
      by_cases hle : endT ≤ now
      · rw [drainGo_stop _ _ _ _ _ hle]
        simp
      · rw [drainGo, if_neg hle]
        simp
  | succ fuel ih =>
      intro endT now buf devs
      by_cases hle : endT ≤ now
      · rw [drainGo_stop _ _ _ _ _ hle]
        simp
      · rw [drainGo, if_neg hle]
        cases devs with
        | nil =>
            have := ih endT (now + min 10 (endT - now)) buf []
            simpa using this
        | cons d tail =>
            cases d with
            | dclosed => simp
            | derr =>
                have := ih endT (now + min 10 (endT - now)) buf tail
                simpa using this
            | ddata chunk =>
                have := ih endT (now + min 10 (endT - now))
                  ((chunk.take CAP) ++ buf.drop (chunk.take CAP).length) tail
                simpa using this

theorem drainLoop_logs_no_closed (endT now : Nat) (buf : List Nat) (devs : List DEv) :
    LogEv.closedLog ∉ (drainLoop endT now buf devs).logs :=
  drainGo_logs_no_closed (endT - now) endT now buf devs

theorem writestr_logs_no_closed (w : WSt) (s : List Nat)
    (h : LogEv.closedLog ∉ w.logs) :
    LogEv.closedLog ∉ (writestr w s).1.logs := by
  rcases w with ⟨wire, wq, logs⟩
  cases wq with
  | nil => simpa [writestr] using h
  | cons k t =>
      by_cases hk : s.length ≤ k
      · simpa [writestr, hk] using h
      · simpa [writestr, hk] using h

/-! ### Helper lemmas about the assembled run -/

theorem run_some_elim (delay start : Nat) (evs : List REv) (devs : List DEv)
    (wq : List Nat) (r : Run) (h : run delay start evs devs wq = some r) :
    ∃ s1 k rlogs,
      readLoop (start + delay) { now := start, buf := [], http := false } evs =
          (s1, k, rlogs) ∧
        k ≠ ExitK.pending ∧ r = afterRead (start + delay) start devs wq s1 k rlogs := by
  unfold run at h
  rcases hrl : readLoop (start + delay) { now := start, buf := [], http := false } evs
    with ⟨s1, k, rlogs⟩
  try rw [hrl] at h
  cases k with
  | pending => simp at h
  | timedOut =>
      refine ⟨s1, ExitK.timedOut, rlogs, by first | rfl | exact hrl, by simp, ?_⟩
      simp at h
      exact h.symm
  | sawEof =>
      refine ⟨s1, ExitK.sawEof, rlogs, by first | rfl | exact hrl, by simp, ?_⟩
      simp at h
      exact h.symm
  | fatal =>
      refine ⟨s1, ExitK.fatal, rlogs, by first | rfl | exact hrl, by simp, ?_⟩
      simp at h
      exact h.symm

theorem afterRead_acts (endT start : Nat) (devs : List DEv) (wq : List Nat)
    (s1 : RSt) (k : ExitK) (rlogs : List LogEv) :
    (afterRead endT start devs wq s1 k rlogs).acts = [Act.shutdownRDWR, Act.closeFd] := by
  simp only [afterRead, finish]
  split_ifs <;> rfl

theorem afterRead_exitk (endT start : Nat) (devs : List DEv) (wq : List Nat)
    (s1 : RSt) (k : ExitK) (rlogs : List LogEv) :
    (afterRead endT start devs wq s1 k rlogs).exitk = k := by
  simp only [afterRead, finish]
  split_ifs <;> rfl

theorem afterRead_http (endT start : Nat) (devs : List DEv) (wq : List Nat)
    (s1 : RSt) (k : ExitK) (rlogs : List LogEv) :
    (afterRead endT start devs wq s1 k rlogs).http = s1.http := by
  simp only [afterRead, finish]
  split_ifs <;> rfl

theorem not_mem_ite_logs (c : Prop) [Decidable c] (A B : WSt)
    (hA : LogEv.closedLog ∉ A.logs) (hB : LogEv.closedLog ∉ B.logs) :
    LogEv.closedLog ∉ (if c then A else B).logs := by
  split
  · exact hA
  · exact hB

theorem httpBlock_logs_no_closed (http eof0 : Bool) (wq : List Nat) :
    LogEv.closedLog ∉ (httpBlock http eof0 wq).1.logs := by
  have h1 := writestr_logs_no_closed { wire := [], wq := wq, logs := [] } status503
    (by simp)
  have h2 := writestr_logs_no_closed _ contentType h1
  unfold httpBlock
  cases http with
  | false => simp
  | true => exact not_mem_ite_logs _ _ _ h2 (by simp [h2])

theorem finish_count_closed (s1 : RSt) (k : ExitK) (mid : List LogEv) (wire : List Nat)
    (rt : Option Nat) (susp iters : Nat) (h : LogEv.closedLog ∉ mid) :
    (finish s1 k mid wire rt susp iters).logs.count LogEv.closedLog = 1 := by
  simp [finish, List.count_cons, List.count_append, List.count_eq_zero.mpr h]

theorem afterRead_count_closed (endT start : Nat) (devs : List DEv) (wq : List Nat)
    (s1 : RSt) (k : ExitK) (rlogs : List LogEv) (h : LogEv.closedLog ∉ rlogs) :
    (afterRead endT start devs wq s1 k rlogs).logs.count LogEv.closedLog = 1 := by
  have hhb := httpBlock_logs_no_closed s1.http (decide (k = ExitK.sawEof)) wq
  have hd := drainLoop_logs_no_closed endT s1.now s1.buf devs
  have hw1 : LogEv.closedLog ∉
      ({ wire := (httpBlock s1.http (decide (k = ExitK.sawEof)) wq).1.wire,
         wq := (httpBlock s1.http (decide (k = ExitK.sawEof)) wq).1.wq,
         logs := (httpBlock s1.http (decide (k = ExitK.sawEof)) wq).1.logs ++
           (drainLoop endT s1.now s1.buf devs).logs } : WSt).logs := by
    simp [hhb, hd]
  have hwA := writestr_logs_no_closed _ contentLength0 hw1
  have hwB := writestr_logs_no_closed _ hello hw1
  simp only [afterRead]
  split_ifs with h1 h2 h3 h4
  · exact finish_count_closed _ _ _ _ _ _ _ h
  · exact finish_count_closed _ _ _ _ _ _ _ (by simp [h, hhb])
  · exact finish_count_closed _ _ _ _ _ _ _ (by simp [h, hhb, hd])
  · refine finish_count_closed _ _ _ _ _ _ _ ?_
    simp only [List.mem_append, not_or]
    exact ⟨h, by simpa using hwA⟩
  · refine finish_count_closed _ _ _ _ _ _ _ ?_
    simp only [List.mem_append, not_or]
    exact ⟨h, by simpa using hwB⟩

theorem httpBlock_wq_nil (http eof0 : Bool) :
    (httpBlock http eof0 []).2 = eof0 ∧
      (httpBlock http eof0 []).1.wire = (if http then status503 ++ contentType else []) ∧
      (httpBlock http eof0 []).1.wq = [] := by
  cases http <;> cases eof0 <;> simp [httpBlock, writestr]

theorem afterRead_timedOut_spec (endT start : Nat) (devs : List DEv)
    (s1 : RSt) (rlogs : List LogEv) (hn : s1.now = endT) :
    (afterRead endT start devs [] s1 ExitK.timedOut rlogs).wire =
        (if s1.http then status503 ++ contentType ++ contentLength0 else hello) ∧
      (afterRead endT start devs [] s1 ExitK.timedOut rlogs).respTime = some endT ∧
      (afterRead endT start devs [] s1 ExitK.timedOut rlogs).drainIters = 0 := by
  have hd := drainLoop_stop endT endT s1.buf devs (le_refl endT)
  cases hhttp : s1.http <;>
    simp [afterRead, httpBlock, writestr, finish, hn, hhttp, hd]

theorem afterRead_sawEof_spec (endT start : Nat) (devs : List DEv) (wq : List Nat)
    (s1 : RSt) (rlogs : List LogEv) :
    (afterRead endT start devs wq s1 ExitK.sawEof rlogs).respTime = none ∧
      (afterRead endT start devs wq s1 ExitK.sawEof rlogs).drainIters = 0 ∧
      (s1.http = false → (afterRead endT start devs wq s1 ExitK.sawEof rlogs).wire = []) ∧
      (wq = [] → s1.http = true →
        (afterRead endT start devs wq s1 ExitK.sawEof rlogs).wire =
          status503 ++ contentType) := by
  cases hhttp : s1.http with
  | false => simp [afterRead, httpBlock, finish, hhttp]
  | true =>
      refine ⟨?_, ?_, by simp [hhttp], ?_⟩
      · simp [afterRead, httpBlock, finish, hhttp]
      · simp [afterRead, httpBlock, finish, hhttp]
      · intro hwq _
        subst hwq
        simp [afterRead, httpBlock, finish, hhttp, writestr]

theorem afterRead_timedOut_respTime (endT start : Nat) (devs : List DEv) (wq : List Nat)
    (s1 : RSt) (rlogs : List LogEv) (hn : s1.now = endT) (t : Nat)
    (ht : (afterRead endT start devs wq s1 ExitK.timedOut rlogs).respTime = some t) :
    t = endT := by
  have hd := drainLoop_stop endT endT s1.buf devs (le_refl endT)
  by_cases hb2 : (httpBlock s1.http false wq).2 = true
  · simp [afterRead, finish, hn, hd, hb2] at ht
  · simp [afterRead, finish, hn, hd, hb2] at ht
    omega

theorem afterRead_susp (endT start : Nat) (devs : List DEv) (wq : List Nat)
    (s1 : RSt) (k : ExitK) (rlogs : List LogEv) (hs : s1.now ≤ endT)
    (hs0 : start ≤ s1.now) :
    (afterRead endT start devs wq s1 k rlogs).totalSusp ≤ endT - start ∧
      (afterRead endT start devs wq s1 k rlogs).drainIters ≤ (endT - s1.now + 9) / 10 := by
  have h1 := drainLoop_sleeps_sum endT s1.now s1.buf devs
  have h2 := drainLoop_iters_le endT s1.now s1.buf devs
  simp only [afterRead, finish]
  split_ifs <;> constructor <;> simp
  all_goals omega

theorem run_timedOut_spec (delay start : Nat) (evs : List REv) (devs : List DEv)
    (r : Run) (h : run delay start evs devs [] = some r)
    (hk : r.exitk = ExitK.timedOut) :
    r.wire = (if r.http then status503 ++ contentType ++ contentLength0 else hello) ∧
      r.respTime = some (start + delay) ∧ r.drainIters = 0 := by
  obtain ⟨s1, k, rlogs, hrl, hnp, hr⟩ := run_some_elim delay start evs devs [] r h
  have hkk : k = ExitK.timedOut := by
    rw [hr, afterRead_exitk] at hk
    exact hk
  subst hkk
  have h0 : ({ now := start, buf := [], http := false } : RSt).now ≤ start + delay := by
    simp
  have hn : s1.now = start + delay := by
    have := readLoop_timedOut_now (start + delay) evs _ h0 (by rw [hrl])
    rw [hrl] at this
    exact this
  have hsp := afterRead_timedOut_spec (start + delay) start devs s1 rlogs hn
  rw [hr, afterRead_http]
  exact hsp

theorem run_sawEof_spec (delay start : Nat) (evs : List REv) (devs : List DEv)
    (wq : List Nat) (r : Run) (h : run delay start evs devs wq = some r)
    (hk : r.exitk = ExitK.sawEof) :
    r.respTime = none ∧ r.drainIters = 0 ∧
      (r.http = false → r.wire = []) ∧
      (wq = [] → r.http = true → r.wire = status503 ++ contentType) := by
  obtain ⟨s1, k, rlogs, hrl, hnp, hr⟩ := run_some_elim delay start evs devs wq r h
  have hkk : k = ExitK.sawEof := by
    rw [hr, afterRead_exitk] at hk
    exact hk
  subst hkk
  have hsp := afterRead_sawEof_spec (start + delay) start devs wq s1 rlogs
  rw [hr, afterRead_http]
  exact hsp

theorem run_respTime_exact (delay start : Nat) (evs : List REv) (devs : List DEv)
    (wq : List Nat) (r : Run) (t : Nat) (h : run delay start evs devs wq = some r)
    (ht : r.respTime = some t) : t = start + delay := by
  obtain ⟨s1, k, rlogs, hrl, hnp, hr⟩ := run_some_elim delay start evs devs wq r h
  have h0 : ({ now := start, buf := [], http := false } : RSt).now ≤ start + delay := by
    simp
  cases k with
  | pending => exact absurd rfl hnp
  | fatal =>
      rw [hr] at ht
      simp [afterRead, finish] at ht
  | sawEof =>
      rw [hr] at ht
      rw [(afterRead_sawEof_spec (start + delay) start devs wq s1 rlogs).1] at ht
      simp at ht
  | timedOut =>
      have hn : s1.now = start + delay := by
        have := readLoop_timedOut_now (start + delay) evs _ h0 (by rw [hrl])
        rw [hrl] at this
        exact this
      rw [hr] at ht
      exact afterRead_timedOut_respTime (start + delay) start devs wq s1 rlogs hn t ht

theorem run_susp (delay start : Nat) (evs : List REv) (devs : List DEv)
    (wq : List Nat) (r : Run) (h : run delay start evs devs wq = some r) :
    r.totalSusp ≤ delay ∧ r.drainIters ≤ (delay + 9) / 10 := by
  obtain ⟨s1, k, rlogs, hrl, hnp, hr⟩ := run_some_elim delay start evs devs wq r h
  have h0 : ({ now := start, buf := [], http := false } : RSt).now ≤ start + delay := by
    simp
  have hle : s1.now ≤ start + delay := by
    have := readLoop_now_le (start + delay) evs _ h0
    rw [hrl] at this
    exact this
  have hmono : start ≤ s1.now := by
    have := readLoop_now_mono (start + delay) evs _ h0
    rw [hrl] at this
    exact this
  have hsp := afterRead_susp (start + delay) start devs wq s1 k rlogs hle hmono
  rw [hr]
  constructor
  · have := hsp.1
    omega
  · have := hsp.2
    have hmon : (start + delay - s1.now + 9) / 10 ≤ (delay + 9) / 10 :=
      Nat.div_le_div_right (by omega)
    omega

/-! ### Helper lemmas about the sniffer -/

theorem hasPrefixB_iff (hay pat : List Nat) :
    hasPrefixB hay pat = true ↔ ∃ t, hay = pat ++ t := by
  induction pat generalizing hay with
  | nil => simp [hasPrefixB]
  | cons b bs ih =>
      cases hay with
      | nil => simp [hasPrefixB]
      | cons a as => simp [hasPrefixB, ih]

theorem containsSeqB_iff (hay pat : List Nat) :
    containsSeqB hay pat = true ↔ occursAnywhere pat hay := by
  induction hay with
  | nil =>
      simp only [containsSeqB, occursAnywhere, List.isEmpty_iff]
      constructor
      · rintro rfl
        exact ⟨[], [], rfl⟩
      · rintro ⟨u, v, h⟩
        rcases List.append_eq_nil.mp h.symm with ⟨h1, h2⟩
        rcases List.append_eq_nil.mp h1 with ⟨h3, h4⟩
        exact h4
  | cons a as ih =>
      simp only [containsSeqB, Bool.or_eq_true, hasPrefixB_iff, ih]
      constructor
      · rintro (⟨t, ht⟩ | ⟨u, v, huv⟩)
        · exact ⟨[], t, by simpa using ht⟩
        · exact ⟨a :: u, v, by simp [huv]⟩
      · rintro ⟨u, v, huv⟩
        cases u with
        | nil =>
            exact Or.inl ⟨v, by simpa using huv⟩
        | cons x u' =>
            right
            rw [List.cons_append, List.cons_append] at huv
            exact ⟨u', v, (List.cons.injEq _ _ _ _).mp huv |>.2⟩

theorem sniff_iff (held : List Nat) :
    sniff held = true ↔
      (occursAnywhere marker10 held ∨ occursAnywhere marker11 held) := by
  simp [sniff, containsSeqB_iff]

theorem rstep_data_http (endT : Nat) (s : RSt) (chunk : List Nat) (dt : Nat)
    (h : s.buf.length < CAP) :
    (rstep endT s (REv.data chunk dt)).1.http =
      (s.http || sniff (s.buf ++ chunk.take (CAP - s.buf.length))) := by
  simp only [rstep]
  rw [if_pos (by omega)]
  cases s.http <;> simp

theorem rstep_http_mono (endT : Nat) (s : RSt) (e : REv) (h : s.http = true) :
    (rstep endT s e).1.http = true := by
  cases e <;> simp only [rstep] <;> try simpa
  case data chunk dt =>
    split <;> simp [h]

/-! ### Concrete runs used by witnesses -/

/-- Outcome of `run 3 0 [REv.timeout] [] []`: a quiet connection. -/
def runQuiet3 : Run :=
  { wire := hello, logs := [LogEv.connected, LogEv.closedLog],
    acts := [Act.shutdownRDWR, Act.closeFd], http := false, exitk := ExitK.timedOut,
    respTime := some 3, totalSusp := 3, drainIters := 0 }

/-- Outcome of `run 3 0 [REv.data (strBytes "HEAD / HTTP/1.0\r\n\r\n") 1, REv.timeout] [] []`. -/
def runHttp3 : Run :=
  { wire := status503 ++ contentType ++ contentLength0,
    logs := [LogEv.connected, LogEv.received 19,
      LogEv.reqLine (strBytes "HEAD / HTTP/1.0"), LogEv.sent503, LogEv.closedLog],
    acts := [Act.shutdownRDWR, Act.closeFd], http := true, exitk := ExitK.timedOut,
    respTime := some 3, totalSusp := 3, drainIters := 0 }

/-- Outcome of `run 4 0 [REv.rfatal 1] [] []`: a fatal read error. -/
def runFatal4 : Run :=
  { wire := [], logs := [LogEv.connected, LogEv.errLog, LogEv.closedLog],
    acts := [Act.shutdownRDWR, Act.closeFd], http := false, exitk := ExitK.fatal,
    respTime := none, totalSusp := 1, drainIters := 0 }

/-- Outcome of `run 2 5 [REv.peerClosed 1] [] []`: a silent peer closing early. -/
def runEof2 : Run :=
  { wire := [], logs := [LogEv.connected, LogEv.eofLog, LogEv.closedLog],
    acts := [Act.shutdownRDWR, Act.closeFd], http := false, exitk := ExitK.sawEof,
    respTime := none, totalSusp := 1, drainIters := 0 }

/-! ### The claims -/

/-- C1 counterexample: a peer that sends an HTTP request line and then
closes before the delay elapses (read-loop exit is `sawEof` with
`delay = 5` and both events at `dt = 0`) still receives response bytes —
the 503 status line and the Content-Type header — because the header
block at C lines 162-170 is not guarded by the eof flag.  So "the server
sends no response bytes at all" is false as stated. -/
theorem c1_counterexample :
    (run 5 0 [REv.data (strBytes "GET / HTTP/1.1\r\n") 0, REv.peerClosed 0] [] []).map
        Run.exitk = some ExitK.sawEof ∧
      (run 5 0 [REv.data (strBytes "GET / HTTP/1.1\r\n") 0, REv.peerClosed 0] [] []).map
        Run.wire = some (status503 ++ contentType) ∧
      status503 ++ contentType ≠ ([] : List Nat) := by
  refine ⟨by decide, by decide, by decide⟩

/-- C1 (amended): for every connection whose peer closes before the delay
elapses (read-loop exit `sawEof`), the draining phase and the final
response are skipped (no response time, zero drain iterations); a
connection not classified as HTTP receives no bytes at all; but a
connection already classified as HTTP still gets the 503 status line and
Content-Type header written after the EOF (shown for fully succeeding
writes), before the transition to CLOSED. -/
theorem c1_peer_close_no_response (delay start : Nat) (evs : List REv) (devs : List DEv)
    (wq : List Nat) (r : Run) (h : run delay start evs devs wq = some r)
    (hk : r.exitk = ExitK.sawEof) :
    r.respTime = none ∧ r.drainIters = 0 ∧
      (r.http = false → r.wire = []) ∧
      (wq = [] → r.http = true → r.wire = status503 ++ contentType) :=
  run_sawEof_spec delay start evs devs wq r h hk

/-- C1 witness: the amended theorem applied to a concrete early-closing
non-HTTP connection. -/
theorem c1_witness :
    run 2 5 [REv.peerClosed 1] [] [] = some runEof2 ∧
      runEof2.respTime = none ∧ runEof2.drainIters = 0 ∧ runEof2.wire = [] :=
  ⟨by decide,
   (c1_peer_close_no_response 2 5 [REv.peerClosed 1] [] [] runEof2 (by decide)
      (by decide)).1,
   (c1_peer_close_no_response 2 5 [REv.peerClosed 1] [] [] runEof2 (by decide)
      (by decide)).2.1,
   (c1_peer_close_no_response 2 5 [REv.peerClosed 1] [] [] runEof2 (by decide)
      (by decide)).2.2.1 rfl⟩

/-- C2: for a completed connection that stayed open past the delay
(read-loop exit `timedOut`) with all writes succeeding, a non-HTTP client
(sniffer never fired) receives exactly `Hello, world!\r\n` and the
connection closes, while an HTTP-classified client receives
`HTTP/1.1 503 Service Unavailable\r\n` then `Content-Type: text/plain\r\n`
then, after the (post-deadline) draining phase, `Content-Length: 0\r\n\r\n`
and the close. -/
theorem c2_wire_behaviour (delay start : Nat) (evs : List REv) (devs : List DEv)
    (r : Run) (h : run delay start evs devs [] = some r)
    (hk : r.exitk = ExitK.timedOut) :
    (r.http = false → r.wire = hello) ∧
      (r.http = true → r.wire = status503 ++ contentType ++ contentLength0) := by
  have hsp := run_timedOut_spec delay start evs devs r h hk
  constructor
  · intro hh
    rw [hsp.1, hh]
    simp
  · intro hh
    rw [hsp.1, hh]
    simp

/-- C2 witness: the theorem applied to a concrete HTTP connection. -/
theorem c2_witness :
    run 3 0 [REv.data (strBytes "HEAD / HTTP/1.0\r\n\r\n") 1, REv.timeout] [] [] =
        some runHttp3 ∧
      runHttp3.wire = status503 ++ contentType ++ contentLength0 :=
  ⟨by decide,
   (c2_wire_behaviour 3 0 [REv.data (strBytes "HEAD / HTTP/1.0\r\n\r\n") 1, REv.timeout]
      [] runHttp3 (by decide) (by decide)).2 rfl⟩

/-- C3: the deadline is fixed at connection start as `start + delay`
(seconds granularity), every remaining-time computation subtracts the
current time from it, and the effective delay is never extended: whenever
a completed run emits its terminal response, it does so exactly at
`start + delay` — no earlier than the delay, and no later up to the
model's (zero) scheduling slack; moreover a connection that sends no data
and never closes (its only event is the select timeout) does receive the
terminal response, at exactly that time. -/
theorem c3_deadline_exact :
    (∀ delay start evs devs wq r t, run delay start evs devs wq = some r →
        r.respTime = some t → t = start + delay) ∧
    (∀ delay start : Nat, 0 < delay →
        ∃ r, run delay start [REv.timeout] [] [] = some r ∧
          r.respTime = some (start + delay) ∧ r.wire = hello) := by
  constructor
  · exact fun delay start evs devs wq r t h ht =>
      run_respTime_exact delay start evs devs wq r t h ht
  · intro delay start hd
    have hrl : readLoop (start + delay) { now := start, buf := [], http := false }
        [REv.timeout] =
        ({ now := start + delay, buf := [], http := false }, ExitK.timedOut, []) := by
      simp [readLoop, rstep, show ¬(start + delay ≤ start) by omega]
    refine ⟨afterRead (start + delay) start [] []
        { now := start + delay, buf := [], http := false } ExitK.timedOut [], ?_, ?_, ?_⟩
    · unfold run
      rw [hrl]
    · exact (afterRead_timedOut_spec (start + delay) start []
        { now := start + delay, buf := [], http := false } [] rfl).2.1
    · have := (afterRead_timedOut_spec (start + delay) start []
        { now := start + delay, buf := [], http := false } [] rfl).1
      simpa using this

/-- C3 witness: the exactness part applied to a concrete quiet run. -/
theorem c3_witness :
    run 3 0 [REv.timeout] [] [] = some runQuiet3 ∧ runQuiet3.respTime = some 3 ∧
      (3 : Nat) = 0 + 3 :=
  ⟨by decide, by decide,
   c3_deadline_exact.1 3 0 [REv.timeout] [] [] runQuiet3 3 (by decide) (by decide)⟩

/-- C4: every completed run, regardless of exit path (timeout-then-
response, peer EOF, fatal error), performs exactly one shutdown of both
directions followed by exactly one close, and logs the close event
exactly once. -/
theorem c4_close_exactly_once (delay start : Nat) (evs : List REv) (devs : List DEv)
    (wq : List Nat) (r : Run) (h : run delay start evs devs wq = some r) :
    r.acts = [Act.shutdownRDWR, Act.closeFd] ∧
      r.logs.count LogEv.closedLog = 1 := by
  obtain ⟨s1, k, rlogs, hrl, hnp, hr⟩ := run_some_elim delay start evs devs wq r h
  have hcl : LogEv.closedLog ∉ rlogs := by
    have := closedLog_not_readLoop (start + delay) evs
      { now := start, buf := [], http := false }
    rw [hrl] at this
    simpa using this
  rw [hr]
  exact ⟨afterRead_acts _ _ _ _ _ _ _, afterRead_count_closed _ _ _ _ _ _ _ hcl⟩

/-- C4 witness: the theorem applied to a concrete fatal-error run. -/
theorem c4_witness :
    run 4 0 [REv.rfatal 1] [] [] = some runFatal4 ∧
      runFatal4.acts = [Act.shutdownRDWR, Act.closeFd] ∧
      runFatal4.logs.count LogEv.closedLog = 1 :=
  ⟨by decide, c4_close_exactly_once 4 0 [REv.rfatal 1] [] [] runFatal4 (by decide)⟩

/-- C5: the sniffer fires exactly when `HTTP/1.0\r\n` or `HTTP/1.1\r\n`
occurs contiguously anywhere in the held bytes (not anchored to the
buffer start): a data step with remaining room sets the flag precisely
when a marker occurs in the updated held bytes; and once the buffer is
full before the marker arrived, the rest of the read loop never changes
the classification (detection never occurs for that connection). -/
theorem c5_sniffer_exact :
    (∀ held, sniff held = true ↔
        (occursAnywhere marker10 held ∨ occursAnywhere marker11 held)) ∧
    (∀ endT s chunk dt, s.buf.length < CAP →
        (rstep endT s (REv.data chunk dt)).1.http =
          (s.http || sniff (s.buf ++ chunk.take (CAP - s.buf.length)))) ∧
    (∀ endT s evs, s.buf.length = CAP →
        (readLoop endT s evs).1.http = s.http) := by
  refine ⟨sniff_iff, rstep_data_http, ?_⟩
  intro endT s evs h
  exact (readLoop_full endT evs s h).1

/-- C5 witness: the three parts at concrete inputs — a request line is
detected, the marker indeed occurs in it, and a full buffer blocks
detection for the rest of the loop. -/
theorem c5_witness :
    (rstep 7 { now := 0, buf := [], http := false }
        (REv.data (strBytes "GET / HTTP/1.1\r\n") 0)).1.http =
      (false || sniff ([] ++ (strBytes "GET / HTTP/1.1\r\n").take (CAP - 0))) ∧
      (occursAnywhere marker10 (strBytes "HEAD / HTTP/1.0\r\n") ∨
        occursAnywhere marker11 (strBytes "HEAD / HTTP/1.0\r\n")) ∧
      (readLoop 7 { now := 0, buf := List.replicate CAP 65, http := false }
          [REv.data (strBytes "HTTP/1.1\r\n") 0]).1.http = false :=
  ⟨c5_sniffer_exact.2.1 7 { now := 0, buf := [], http := false }
      (strBytes "GET / HTTP/1.1\r\n") 0 (by decide),
   (c5_sniffer_exact.1 (strBytes "HEAD / HTTP/1.0\r\n")).mp (by decide),
   c5_sniffer_exact.2.2 7 { now := 0, buf := List.replicate CAP 65, http := false }
      [REv.data (strBytes "HTTP/1.1\r\n") 0] (by simp)⟩

/-- C6 counterexample: with the buffer full (4096 copies of byte 65), a
further receive of byte 66 lands in the buffer's own storage: afterwards
the first held byte is 66, not the 65 that was held — the "scratch"
region aliases the buffer, so the held bytes are not left undisturbed. -/
theorem c6_counterexample :
    (rstep 5 { now := 0, buf := List.replicate CAP 65, http := false }
        (REv.data [66] 0)).1.buf.head? = some 66 ∧
      ({ now := 0, buf := List.replicate CAP 65, http := false } : RSt).buf.head? =
        some 65 ∧
      (66 : Nat) ≠ 65 := by
  refine ⟨?_, ?_, by decide⟩
  · rw [rstep_scratch 5 { now := 0, buf := List.replicate CAP 65, http := false }
        [66] 0 (by simp)]
    rw [List.take_of_length_le (by simp [CAP] : ([66] : List Nat).length ≤ CAP)]
    simp
  · show (List.replicate CAP (65 : Nat)).head? = some 65
    rw [show CAP = 4095 + 1 from rfl, List.replicate_succ]
    rfl

/-- C6 (amended): once the buffer is full, a receive still consumes bytes
(the read is made and logged), the held-byte count stays at capacity, the
excess data is not retained as held input and classification is
unaffected — but the receive reads into the buffer's own storage from its
start, overwriting the first bytes with the new data (the bytes past the
overwritten region are preserved). -/
theorem c6_full_receive_overwrites (endT : Nat) (s : RSt) (chunk : List Nat) (dt : Nat)
    (h : s.buf.length = CAP) :
    (rstep endT s (REv.data chunk dt)).1.buf.length = CAP ∧
      (rstep endT s (REv.data chunk dt)).1.http = s.http ∧
      (rstep endT s (REv.data chunk dt)).2.2 =
        [LogEv.received (chunk.take CAP).length] ∧
      (rstep endT s (REv.data chunk dt)).1.buf.take (chunk.take CAP).length =
        chunk.take CAP ∧
      (rstep endT s (REv.data chunk dt)).1.buf.drop (chunk.take CAP).length =
        s.buf.drop (chunk.take CAP).length := by
  have hfull := rstep_full endT s (REv.data chunk dt) h
  refine ⟨hfull.1, hfull.2, ?_, ?_, ?_⟩
  · simp only [rstep]
    rw [if_neg (by omega)]
  · simp only [rstep]
    rw [if_neg (by omega)]
    exact List.take_left _ _
  · simp only [rstep]
    rw [if_neg (by omega)]
    exact List.drop_left _ _

/-- C6 witness: the amended theorem at the concrete full buffer. -/
theorem c6_witness :
    (rstep 5 { now := 0, buf := List.replicate CAP 65, http := false }
        (REv.data [66] 0)).1.buf.length = CAP ∧
      (rstep 5 { now := 0, buf := List.replicate CAP 65, http := false }
        (REv.data [66] 0)).1.http = false ∧
      (rstep 5 { now := 0, buf := List.replicate CAP 65, http := false }
        (REv.data [66] 0)).2.2 = [LogEv.received (([66] : List Nat).take CAP).length] :=
  ⟨(c6_full_receive_overwrites 5 _ [66] 0 (by simp)).1,
   (c6_full_receive_overwrites 5 _ [66] 0 (by simp)).2.1,
   (c6_full_receive_overwrites 5 _ [66] 0 (by simp)).2.2.1⟩

/-- C7: the held-byte count never exceeds the buffer capacity 4096: a
single receive grows it by at most the remaining space, a receive into a
full buffer leaves it unchanged, and the bound is preserved through the
whole read loop and the draining loop. -/
theorem c7_capacity_invariant :
    (∀ endT s e, s.buf.length ≤ CAP → (rstep endT s e).1.buf.length ≤ CAP) ∧
      (∀ endT s chunk dt, (rstep endT s (REv.data chunk dt)).1.buf.length ≤
          s.buf.length + (CAP - s.buf.length)) ∧
      (∀ endT s chunk dt, s.buf.length = CAP →
          (rstep endT s (REv.data chunk dt)).1.buf.length = s.buf.length) ∧
      (∀ endT evs s, s.buf.length ≤ CAP →
          (readLoop endT s evs).1.buf.length ≤ CAP) ∧
      (∀ endT now buf devs, buf.length ≤ CAP →
          (drainLoop endT now buf devs).buf.length ≤ CAP) := by
  refine ⟨rstep_buf_le, rstep_data_growth, ?_, readLoop_buf_le, drainLoop_buf_le⟩
  intro endT s chunk dt h
  have := rstep_full endT s (REv.data chunk dt) h
  rw [this.1, h]

/-- C7 witness: the step and loop bounds at concrete inputs. -/
theorem c7_witness :
    (rstep 5 { now := 0, buf := [], http := false } REv.timeout).1.buf.length ≤ CAP ∧
      (readLoop 5 { now := 0, buf := [], http := false }
        [REv.data (strBytes "hi") 0, REv.timeout]).1.buf.length ≤ CAP :=
  ⟨c7_capacity_invariant.1 5 { now := 0, buf := [], http := false } REv.timeout
      (by decide),
   c7_capacity_invariant.2.2.2.1 5 [REv.data (strBytes "hi") 0, REv.timeout]
      { now := 0, buf := [], http := false } (by decide)⟩

/-- C8: every iteration of the draining loop that does not see EOF sleeps
exactly `min 10 remaining` seconds and then re-checks the deadline; the
loop performs at most `ceil(remaining/10)` iterations from any state
(hence at most `ceil(delay/10)` in a complete run); and total suspension
over a complete connection is bounded by `2 × delay` (indeed by `delay`). -/
theorem c8_drain_bounds :
    (∀ endT now buf devs, now < endT → devs.head? ≠ some DEv.dclosed →
        (drainLoop endT now buf devs).sleeps.head? = some (min 10 (endT - now))) ∧
      (∀ endT now buf devs,
          (drainLoop endT now buf devs).iters ≤ (endT - now + 9) / 10) ∧
      (∀ delay start evs devs wq r, run delay start evs devs wq = some r →
          r.drainIters ≤ (delay + 9) / 10 ∧ r.totalSusp ≤ 2 * delay) := by
  refine ⟨drainLoop_head_sleep, drainLoop_iters_le, ?_⟩
  intro delay start evs devs wq r h
  have := run_susp delay start evs devs wq r h
  exact ⟨this.2, by omega⟩

/-- C8 witness: the bounds at a concrete drain state and a concrete run. -/
theorem c8_witness :
    (drainLoop 25 0 [] []).sleeps.head? = some (min 10 (25 - 0)) ∧
      (drainLoop 25 0 [] []).iters ≤ (25 - 0 + 9) / 10 ∧
      run 3 0 [REv.timeout] [] [] = some runQuiet3 ∧
      runQuiet3.drainIters ≤ (3 + 9) / 10 ∧ runQuiet3.totalSusp ≤ 2 * 3 :=
  ⟨c8_drain_bounds.1 25 0 [] [] (by decide) (by decide),
   c8_drain_bounds.2.1 25 0 [] [],
   by decide,
   (c8_drain_bounds.2.2 3 0 [REv.timeout] [] [] runQuiet3 (by decide)).1,
   (c8_drain_bounds.2.2 3 0 [REv.timeout] [] [] runQuiet3 (by decide)).2⟩

/-- C9 counterexample: the argument vector `["-x", "8080", "5"]` contains
a malformed (unrecognized) option; the process does exit non-zero, but it
prints an error message, not the usage text — contradicting "any
malformed or missing argument causes the usage text to be printed". -/
theorem c9_counterexample :
    exitsNonzero (mainArgs ["-x", "8080", "5"]) = true ∧
      usagePrinted (mainArgs ["-x", "8080", "5"]) = false := by
  refine ⟨by decide, by decide⟩

/-- C9 (amended): the server runs only when both positional arguments are
present and their `atoi` values (longest numeric prefix) are positive;
every other argument vector exits non-zero before the server runs; a
missing positional or a non-positive `atoi` value prints the usage text,
while an unrecognized option or a surplus argument prints an error
message without the usage text. -/
theorem c9_args_gate :
    (∀ argv p d s, mainArgs argv = ArgRes.runServer p d s → 0 < p ∧ 0 < d) ∧
      (∀ argv, (∃ p d s, mainArgs argv = ArgRes.runServer p d s) ∨
          exitsNonzero (mainArgs argv) = true) ∧
      (∀ argv ps ds s, parseLoop argv none none false = some (some ps, some ds, s) →
          (atoi ps ≤ 0 ∨ atoi ds ≤ 0) → mainArgs argv = ArgRes.exitUsage) ∧
      (∀ argv d s, parseLoop argv none none false = some (none, d, s) →
          mainArgs argv = ArgRes.exitUsage) ∧
      (∀ argv ps s, parseLoop argv none none false = some (some ps, none, s) →
          mainArgs argv = ArgRes.exitUsage) ∧
      (∀ argv, parseLoop argv none none false = none →
          mainArgs argv = ArgRes.exitErrMsg) := by
  refine ⟨?_, ?_, ?_, ?_, ?_, ?_⟩
  · intro argv p d s h
    unfold mainArgs at h
    rcases hp : parseLoop argv none none false with _ | ⟨p', d', s'⟩ <;> rw [hp] at h
    · simp at h
    · cases p' with
      | none => simp at h
      | some ps =>
          cases d' with
          | none => simp at h
          | some ds =>
              simp only [] at h
              split at h
              · simp at h
              · next hc =>
                  rw [ArgRes.runServer.injEq] at h
                  rcases h with ⟨hp1, hd1, _⟩
                  subst hp1
                  subst hd1
                  omega
  · intro argv
    unfold mainArgs
    rcases hp : parseLoop argv none none false with _ | ⟨p', d', s'⟩
    · simp [exitsNonzero]
    · cases p' with
      | none => simp [exitsNonzero]
      | some ps =>
          cases d' with
          | none => simp [exitsNonzero]
          | some ds =>
              simp only []
              split
              · simp [exitsNonzero]
              · exact Or.inl ⟨atoi ps, atoi ds, s', rfl⟩
  · intro argv ps ds s hp hle
    unfold mainArgs
    rw [hp]
    simp [hle]
  · intro argv d s hp
    unfold mainArgs
    rw [hp]
  · intro argv ps s hp
    unfold mainArgs
    rw [hp]
  · intro argv hp
    unfold mainArgs
    rw [hp]

/-- C9 witness: the amended theorem at concrete argument vectors. -/
theorem c9_witness :
    mainArgs ["8080", "5"] = ArgRes.runServer 8080 5 false ∧
      (0 : Int) < 8080 ∧ (0 : Int) < 5 ∧
      mainArgs ["8080", "0"] = ArgRes.exitUsage :=
  ⟨by decide,
   (c9_args_gate.1 ["8080", "5"] 8080 5 false (by decide)).1,
   (c9_args_gate.1 ["8080", "5"] 8080 5 false (by decide)).2,
   c9_args_gate.2.2.1 ["8080", "0"] "8080" "0" false (by decide) (by decide)⟩

/-- C10: in the draining loop a receive error never ends draining — only
a zero-byte read does: with no close event in the drain schedule, the eof
flag stays false and the loop sleeps the clock out to the deadline; and a
completed timed-out run (with succeeding writes) still attempts the final
response write at the deadline, whatever the drain-phase reads returned. -/
theorem c10_drain_errors_ignored :
    (∀ endT now buf devs, DEv.dclosed ∉ devs →
        (drainLoop endT now buf devs).eof = false ∧
          endT ≤ (drainLoop endT now buf devs).now) ∧
      (∀ delay start evs devs r, run delay start evs devs [] = some r →
          r.exitk = ExitK.timedOut → r.respTime = some (start + delay)) := by
  refine ⟨drainLoop_no_closed, ?_⟩
  intro delay start evs devs r h hk
  exact (run_timedOut_spec delay start evs devs r h hk).2.1

/-- C10 witness: the theorem at a concrete drain schedule of two read
errors and at a concrete timed-out run. -/
theorem c10_witness :
    (drainLoop 25 0 [] [DEv.derr, DEv.derr]).eof = false ∧
      25 ≤ (drainLoop 25 0 [] [DEv.derr, DEv.derr]).now ∧
      run 3 0 [REv.timeout] [] [] = some runQuiet3 ∧
      runQuiet3.respTime = some (0 + 3) :=
  ⟨(c10_drain_errors_ignored.1 25 0 [] [DEv.derr, DEv.derr] (by decide)).1,
   (c10_drain_errors_ignored.1 25 0 [] [DEv.derr, DEv.derr] (by decide)).2,
   by decide,
   c10_drain_errors_ignored.2 3 0 [REv.timeout] [] runQuiet3 (by decide) (by decide)⟩

end Unresponsive
